import Mathlib

/-!
Verification development for a voice-to-summary clinical pipeline.

Shallow embedding of the role-classification module (`app/roles.py`) and the
transcript module (`app/transcriber.py`): Python dicts become insertion-ordered
association lists, the OpenAI chat completion becomes an explicit response
parameter (`none` models an exception / unavailable key), numeric confidences
become rationals, and fallible code returns `Option` / `Except`.
-/

namespace VoiceToSummary

/-! ### Python-dict and string helpers -/

/-- Lookup in an insertion-ordered association list (Python `dict.get`). -/
def dictGet {α : Type} (m : List (String × α)) (k : String) : Option α :=
  (m.find? (fun p => p.1 == k)).map Prod.snd

/-- Key membership in an association list (Python `k in d`). -/
def dictHas {α : Type} (m : List (String × α)) (k : String) : Bool :=
  (m.map Prod.fst).contains k

/-- Python `d[k] = v`: update the value in place if the key exists, else append. -/
def dictInsertR {α : Type} (m : List (String × α)) (k : String) (v : α) :
    List (String × α) :=
  if (m.map Prod.fst).contains k then
    m.map (fun p => if p.1 == k then (k, v) else p)
  else m ++ [(k, v)]

/-- Whether `pat` is a leading run of `hay`. -/
def leadMatch : List Char → List Char → Bool
  | [], _ => true
  | _ :: _, [] => false
  | p :: ps, h :: hs => p == h && leadMatch ps hs

/-- Whether `pat` occurs contiguously anywhere in `hay`. -/
def subMatch (pat : List Char) : List Char → Bool
  | [] => leadMatch pat []
  | h :: hs => leadMatch pat (h :: hs) || subMatch pat hs

/-- Python `pat in s` substring test. -/
def strContains (s pat : String) : Bool :=
  subMatch pat.data s.data

/-- Python `" ".join(ws)`. -/
def joinSp : List String → String
  | [] => ""
  | [w] => w
  | w :: ws => w ++ " " ++ joinSp ws

/-- Python `s.lower()` (ASCII case folding, as in the transcripts handled). -/
def pyLower (s : String) : String :=
  ⟨s.data.map Char.toLower⟩

/-- Python `s.strip()`: remove leading and trailing whitespace. -/
def pyStrip (s : String) : String :=
  ⟨(((s.data.dropWhile Char.isWhitespace).reverse).dropWhile Char.isWhitespace).reverse⟩

/-- Python `s.startswith(pat)`. -/
def pyStartsWith (s pat : String) : Bool :=
  leadMatch pat.data s.data

/-- Python `s.endswith(pat)`. -/
def pyEndsWith (s pat : String) : Bool :=
  leadMatch pat.data.reverse s.data.reverse

/-- Python `c in s` for a single character. -/
def pyHasChar (s : String) (c : Char) : Bool :=
  s.data.contains c

/-- Python `s[n:]`. -/
def pyDrop (s : String) (n : Nat) : String :=
  ⟨s.data.drop n⟩

/-- Split a character list at every character satisfying `p`, keeping empty
pieces (the splitting scheme of Python `s.split(sep)` for one-character `sep`). -/
def splitBy (p : Char → Bool) : List Char → List (List Char)
  | [] => [[]]
  | x :: xs =>
    if p x then [] :: splitBy p xs
    else
      match splitBy p xs with
      | r :: rs => (x :: r) :: rs
      | [] => [[x]]

/-- Python `s.split("\n")`. -/
def pySplitNl (s : String) : List String :=
  (splitBy (fun c => c == '\n') s.data).map String.mk

/-- Python `s.split()`: split on whitespace, dropping empty pieces. -/
def pySplit (s : String) : List String :=
  ((splitBy Char.isWhitespace s.data).map String.mk).filter (fun w => w != "")

/-- Split a character list at the first occurrence of `c`; `none` if absent. -/
def splitFirstAux (c : Char) : List Char → Option (List Char × List Char)
  | [] => none
  | x :: xs =>
    if x == c then some ([], xs)
    else (splitFirstAux c xs).map (fun p => (x :: p.1, p.2))

/-- Python `s.split(c, 1)` when it yields two pieces; `none` when `c` is absent. -/
def splitFirst (s : String) (c : Char) : Option (String × String) :=
  (splitFirstAux c s.data).map (fun p => (⟨p.1⟩, ⟨p.2⟩))

/-- Python truthiness `a or b` on an optional string (`None` and `""` are falsy). -/
def pyOr (a b : Option String) : Option String :=
  match a with
  | some s => if s == "" then b else some s
  | none => b

/-! ### Data model (`app/models.py`)

Roles are carried as strings, as in the Python `Literal` type. -/

/-- Word-level token attached to a turn (`models.Word`, the fields the core uses). -/
structure Word where
  start_time : Option ℚ := none
  end_time : Option ℚ := none
  word : Option String := none
  text : Option String := none
deriving DecidableEq, Repr

/-- A conversational turn (`models.Turn`). -/
structure Turn where
  speaker : String
  text : Option String := none
  words : Option (List Word) := none
deriving DecidableEq, Repr

/-- A turn with an assigned clinical role (`models.ClassifiedTurn`). -/
structure ClassifiedTurn where
  speaker : String
  text : Option String := none
  words : Option (List Word) := none
  role : String
  display_name : String
deriving DecidableEq, Repr

/-! ### Role classification (`app/roles.py`) -/

/-- `roles.ROLE_NAMES`. -/
def ROLE_NAMES : List (String × String) :=
  [("doctor", "Doctor"), ("patient", "Patient"), ("nurse", "Nurse"), ("other", "Other")]

/-- The patient-keyword list scanned by the heuristic (`roles._heuristic_mapping`). -/
def patientKeys : List String :=
  ["i'm feeling", "i feel", "my ", "dizzy", "fever", "since ", "for the past"]

/-- The clinician-keyword list scanned by the heuristic (`roles._heuristic_mapping`). -/
def doctorKeys : List String :=
  ["i'll check", "we'll run", "let me examine", "bp", "tests", "rule out"]

/-- First-appearance deduplication of the speakers of `turns`. -/
def uniqueSpeakers (turns : List Turn) : List String :=
  turns.foldl (fun u t => if u.contains t.speaker then u else u ++ [t.speaker]) []

/-- The `for i, spk in enumerate(unique)` loop assigning positional defaults. -/
def initMapping : List String → Nat → List (String × String) → List (String × String)
  | [], _, m => m
  | spk :: rest, i, m =>
      initMapping rest (i + 1)
        (dictInsertR m spk (if i = 0 then "doctor" else if i = 1 then "patient" else "other"))

/-- Keyword override pass of the heuristic: one speaker's step. -/
def keywordStep (turns : List Turn) (m : List (String × String)) (spk : String) :
    List (String × String) :=
  let joined :=
    pyLower (joinSp ((turns.filter (fun tt => tt.speaker == spk)).map
      (fun tt => tt.text.getD "")))
  let m1 := if patientKeys.any (fun k => strContains joined k) then dictInsertR m spk "patient" else m
  if doctorKeys.any (fun k => strContains joined k) then dictInsertR m1 spk "doctor" else m1

/-- `roles._heuristic_mapping`: positional defaults then keyword overrides. -/
def _heuristic_mapping (turns : List Turn) : List (String × String) :=
  let unique := uniqueSpeakers turns
  let mapping := initMapping unique 0 []
  unique.foldl (keywordStep turns) mapping

/-- The fixed role vocabulary accepted by `classify_roles`. -/
def roleSet : List String := ["doctor", "patient", "nurse", "other"]

/-- One entry of the primary response folded into the mapping:
`mapping[spk] = r if r in {...} else "other"` with `r = str(role).lower().strip()`. -/
def primaryStep (m : List (String × String)) (p : String × String) :
    List (String × String) :=
  let r := pyStrip (pyLower p.2)
  dictInsertR m p.1 (if roleSet.contains r then r else "other")

/-- The mapping built from the parsed `"mapping"` object of the primary response. -/
def primaryMapping (raw : List (String × String)) : List (String × String) :=
  raw.foldl primaryStep []

/-- `roles.classify_roles`. `hasKey` models `settings.openai_api_key` truthiness;
`resp` is the parsed `"mapping"` object of the chat response, `none` standing for
any exception (network failure, unparsable payload). -/
def classify_roles (hasKey : Bool) (resp : Option (List (String × String)))
    (turns : List Turn) : List (String × String) :=
  if !hasKey then _heuristic_mapping turns
  else
    match resp with
    | none => _heuristic_mapping turns
    | some raw =>
      let mapping := primaryMapping raw
      if !mapping.isEmpty && mapping.all (fun p => p.2 == "other") then
        _heuristic_mapping turns
      else if mapping.isEmpty then _heuristic_mapping turns
      else mapping

/-- `roles.relabel_turns` (the Lean name avoids a reserved fragment): attaches
`mapping.get(speaker, "other")` and `ROLE_NAMES[role]` to each turn; `none`
models the `KeyError` raised when a role is outside `ROLE_NAMES`. -/
def re_label_turns : List Turn → List (String × String) → Option (List ClassifiedTurn)
  | [], _ => some []
  | t :: rest, mapping =>
    let role := (dictGet mapping t.speaker).getD "other"
    match dictGet ROLE_NAMES role with
    | none => none
    | some dn =>
      (re_label_turns rest mapping).map
        (fun out => ⟨t.speaker, t.text, t.words, role, dn⟩ :: out)

/-! ### Holistic dialogue refinement (`roles.refine_dialogue_with_llm`) -/

/-- The line-acceptance condition of the refinement parser, with Python's
`and`/`or` precedence kept exactly: `(startswith "[" and "]" in line and
endswith "?") or endswith "." or (" " in line.split("]", 1)[1])`. The error
models the `IndexError` raised by `split("]", 1)[1]` when `"]"` is absent. -/
def lineCond (line : String) (sp : Option (String × String)) : Except Unit Bool :=
  if pyStartsWith line "[" && sp.isSome && pyEndsWith line "?" then Except.ok true
  else if pyEndsWith line "." then Except.ok true
  else
    match sp with
    | none => Except.error ()
    | some (_, post) => Except.ok (pyHasChar post ' ')

/-- Turn an accepted line's two halves into a refined turn, or `none` when the
role tag is unrecognized or the trailing text empty. -/
def acceptTurn (pre post : String) : Option ClassifiedTurn :=
  let role_str := pyStrip (pyDrop pre 1)
  let text := pyStrip post
  if (ROLE_NAMES.map Prod.snd).contains role_str && text != "" then
    let role_key := ((ROLE_NAMES.find? (fun p => p.2 == role_str)).map Prod.fst).getD "other"
    some ⟨"refined", some text, none, role_key, role_str⟩
  else none

/-- Process one response line: `Except.error` models a raised exception
(`IndexError` from the condition, or the `ValueError` of unpacking
`line.split("]", 1)` into two names when `"]"` is absent). -/
def handleLine (line0 : String) : Except Unit (Option ClassifiedTurn) :=
  let line := pyStrip line0
  let sp := splitFirst line ']'
  match lineCond line sp with
  | Except.error e => Except.error e
  | Except.ok false => Except.ok none
  | Except.ok true =>
    match sp with
    | none => Except.error ()
    | some (pre, post) => Except.ok (acceptTurn pre post)

/-- Parse all response lines in order, collecting the accepted turns. -/
def parseLines : List String → Except Unit (List ClassifiedTurn)
  | [] => Except.ok []
  | l :: ls =>
    match handleLine l with
    | Except.error e => Except.error e
    | Except.ok none => parseLines ls
    | Except.ok (some t) => (parseLines ls).map (fun r => t :: r)

/-- `roles.refine_dialogue_with_llm`. `resp` is the raw chat response content;
`none` stands for an exception during the request. Any exception while parsing
(caught by the Python `except`) and an empty parse both fall back to the input. -/
def refine_dialogue_with_llm (hasKey : Bool) (resp : Option String)
    (cts : List ClassifiedTurn) : List ClassifiedTurn :=
  if !hasKey || cts.isEmpty then cts
  else
    match resp with
    | none => cts
    | some content =>
      match parseLines (pySplitNl (pyStrip content)) with
      | Except.error _ => cts
      | Except.ok refined => if refined.isEmpty then cts else refined

/-! ### Transcript payload model (`app/transcriber.py`)

The AWS transcript JSON is modeled structurally: token alternatives carry an
optional parsed confidence (absent or unparsable values are both `none`, and
are skipped identically by the source's `try/except float(c)`); `Option` on
`alternatives` distinguishes a missing key (Python `dict.get` default) from a
present list. -/

/-- One entry of a token's `alternatives` array. -/
structure TAlt where
  content : String := ""
  confidence : Option ℚ := none
deriving DecidableEq, Repr

/-- One entry of `results["items"]`. -/
structure TItem where
  type : String
  start_time : Option String := none
  alternatives : Option (List TAlt) := none
deriving DecidableEq, Repr

/-- One entry of a diarization segment's `items`. -/
structure SegItem where
  start_time : Option String := none
deriving DecidableEq, Repr

/-- One diarization segment. -/
structure Segment where
  speaker_label : Option String := none
  items : List SegItem := []
deriving DecidableEq, Repr

/-- The `results["speaker_labels"]` object (a truthy dict; a missing or falsy
value is modeled as `none` on the `Results` side). -/
structure SpeakerLabels where
  segments : List Segment := []
deriving DecidableEq, Repr

/-- One entry of `results["transcripts"]`. -/
structure TranscriptEntry where
  transcript : String
deriving DecidableEq, Repr

/-- The `results` object of the transcript payload. -/
structure Results where
  items : List TItem := []
  speaker_labels : Option SpeakerLabels := none
  transcripts : List TranscriptEntry := []
deriving DecidableEq, Repr

/-- `transcriber.build_speaker_map`: flatten all segments' item start-times into
a start-time → speaker-label dict (falsy start times are skipped; a segment
without a label maps its times to `none`, as Python stores `None`). -/
def build_speaker_map (sl : SpeakerLabels) : List (String × Option String) :=
  sl.segments.foldl (fun m seg =>
    seg.items.foldl (fun m itm =>
      match itm.start_time with
      | some st => if st != "" then dictInsertR m st seg.speaker_label else m
      | none => m) m) []

/-- `it.get("alternatives", [{}])[0]` in `doc_confidence`: `none` models the
`IndexError` on a present-but-empty list; a missing key yields the default
empty dict. -/
def docAlt0 (it : TItem) : Option TAlt :=
  match it.alternatives with
  | none => some { content := "", confidence := none }
  | some [] => none
  | some (a :: _) => some a

/-- Collect, in stream order, the parsed confidences of pronunciation items
(`none` models a crash). -/
def collectConf : List TItem → Option (List ℚ)
  | [] => some []
  | it :: rest =>
    if it.type = "pronunciation" then
      match docAlt0 it with
      | none => none
      | some alt =>
        match alt.confidence with
        | some c => (collectConf rest).map (fun vs => c :: vs)
        | none => collectConf rest
    else collectConf rest

/-- `transcriber.doc_confidence`: mean of collected confidences, `1.0` when none
exist; `none` models the `IndexError` crash on an empty `alternatives` list. -/
def doc_confidence (items : List TItem) : Option ℚ :=
  (collectConf items).map (fun vals => if vals.isEmpty then 1 else vals.sum / vals.length)

/-- Well-formedness under which `doc_confidence` cannot crash: no pronunciation
item carries a present-but-empty `alternatives` list. -/
def docItemWF (it : TItem) : Bool :=
  if it.type = "pronunciation" then
    match it.alternatives with
    | some [] => false
    | _ => true
  else true

/-- Specification-side reading of "the confidence a pronunciation token
carries": its first alternative's declared confidence, if any. -/
def tokenScore (it : TItem) : Option ℚ :=
  if it.type = "pronunciation" then
    match it.alternatives with
    | some (a :: _) => a.confidence
    | _ => none
  else none

/-! ### Turn reconstruction (`transcriber.pretty_turns`) -/

/-- A turn as the dict `pretty_turns` emits; `words` holds the word texts. -/
structure RawTurn where
  speaker : String
  words : List String
  text : String
deriving DecidableEq, Repr

/-- `it["alternatives"][0]` inside `pretty_turns` (only evaluated on items that
`itemWF` guarantees have a nonempty list; the fallback is unreachable then). -/
def alt0 (it : TItem) : TAlt :=
  match it.alternatives with
  | some (a :: _) => a
  | _ => { content := "", confidence := none }

/-- Well-formedness under which `pretty_turns` cannot crash: every pronunciation
or punctuation item has a present, nonempty `alternatives` list. -/
def itemWF (it : TItem) : Bool :=
  if it.type = "pronunciation" || it.type = "punctuation" then
    match it.alternatives with
    | some (_ :: _) => true
    | _ => false
  else true

/-- The mutable state of the `pretty_turns` walk. -/
structure RState where
  spkIndex : List (String × Nat)
  currentSpeaker : Option String
  currentWords : List String
  turns : List RawTurn
deriving DecidableEq, Repr

/-- Initial walk state. -/
def initState : RState := ⟨[], none, [], []⟩

/-- The nested `flush()`: emit the open turn when a (truthy) speaker is set and
words are pending, deriving `text` from the words. -/
def flushState (st : RState) : RState :=
  match st.currentSpeaker, st.currentWords with
  | some s, w :: ws =>
    if s = "" then st
    else ⟨st.spkIndex, st.currentSpeaker, [], st.turns ++ [⟨s, w :: ws, joinSp (w :: ws)⟩]⟩
  | _, _ => st

/-- The nested `spk_name`: `None` passes through; a new raw label is assigned
the next incrementing display index. -/
def spkName (idx : List (String × Nat)) (lbl : Option String) :
    Option String × List (String × Nat) :=
  match lbl with
  | none => (none, idx)
  | some l =>
    match dictGet idx l with
    | some n => (some ("Speaker " ++ toString n), idx)
    | none => (some ("Speaker " ++ toString (idx.length + 1)), idx ++ [(l, idx.length + 1)])

/-- `ts_to_spk.get(start_time)`: `none` for a missing timestamp, an absent key,
or a stored `None` label. -/
def lookupTs (m : List (String × Option String)) (st : Option String) : Option String :=
  match st with
  | none => none
  | some s =>
    match dictGet m s with
    | none => none
    | some v => v

/-- Resolve a pronunciation token's display speaker and the updated index:
`spk_name(ts_to_spk.get(start_time)) or current_speaker or "Speaker 1"`. -/
def pronSpeaker (ts : List (String × Option String)) (idx : List (String × Nat))
    (cs : Option String) (startTime : Option String) :
    Option String × List (String × Nat) :=
  let p := spkName idx (lookupTs ts startTime)
  (pyOr (pyOr p.1 cs) (some "Speaker 1"), p.2)

/-- Python `current_words[-1]["text"] += punct` with the empty-list fallback
`current_words.append({"text": punct})`. -/
def appendToLast (punct : String) : List String → List String
  | [] => [punct]
  | [w] => [w ++ punct]
  | w :: ws => w :: appendToLast punct ws

/-- Processing one pronunciation item: resolve the speaker, flush on a speaker
change, then append the word. -/
def stepPron (ts : List (String × Option String)) (st : RState) (it : TItem) : RState :=
  let word := (alt0 it).content
  let p := pronSpeaker ts st.spkIndex st.currentSpeaker it.start_time
  let st1 : RState := { st with spkIndex := p.2 }
  let st2 := if p.1 = st1.currentSpeaker then st1
    else { flushState st1 with currentSpeaker := p.1 }
  { st2 with currentWords := st2.currentWords ++ [word] }

/-- Processing one punctuation item: fuse onto the last pending word. -/
def stepPunct (st : RState) (it : TItem) : RState :=
  { st with currentWords := appendToLast ((alt0 it).content) st.currentWords }

/-- Processing one item of the walk (other item types are skipped). -/
def stepItem (ts : List (String × Option String)) (st : RState) (it : TItem) : RState :=
  if it.type = "pronunciation" then stepPron ts st it
  else if it.type = "punctuation" then stepPunct st it
  else st

/-- The whole walk: fold the items, then the final `flush()`. -/
def runItems (ts : List (String × Option String)) (items : List TItem) : List RawTurn :=
  (flushState (items.foldl (stepItem ts) initState)).turns

/-- `transcripts[0]["transcript"] if transcripts else ""`. -/
def headTranscript (r : Results) : String :=
  match r.transcripts with
  | [] => ""
  | t :: _ => t.transcript

/-- `transcriber.pretty_turns`. The `none` result models the `KeyError` /
`IndexError` crash on an ill-formed pronunciation or punctuation item; with no
(truthy) `speaker_labels` the single-turn degradation path is taken. -/
def pretty_turns (r : Results) : Option (List RawTurn) :=
  match r.speaker_labels with
  | none =>
    let text := headTranscript r
    some [⟨"Speaker 1", pySplit text, text⟩]
  | some sl =>
    if r.items.all itemWF then some (runItems (build_speaker_map sl) r.items)
    else none

/-- Specification-side "whitespace-joined text of the token sequence". -/
def tokensText (r : Results) : String :=
  joinSp (r.items.map (fun it => (alt0 it).content))

/-- Invariant carried by every emitted turn: text derivable from words, words
nonempty, speaker truthy. -/
def TurnP (t : RawTurn) : Prop :=
  t.text = joinSp t.words ∧ t.words ≠ [] ∧ t.speaker ≠ ""

/-- The relation between the walk state on the full item stream and the walk
state on the punctuation-free stream: punctuation only ever edits pending word
text, so index, open speaker and emitted-turn count coincide, and the pending
word lists are nonempty together once a speaker is open. -/
def Rrel (st stf : RState) : Prop :=
  stf.spkIndex = st.spkIndex ∧
  stf.currentSpeaker = st.currentSpeaker ∧
  stf.turns.length = st.turns.length ∧
  (st.currentSpeaker = none → stf.currentWords = []) ∧
  (st.currentSpeaker ≠ none → (st.currentWords ≠ [] ∧ stf.currentWords ≠ []))

/-! ### Job lifecycle (`transcriber.wait_for_job`, `transcriber.transcribe_uploaded`) -/

/-- Outcome of the polling loop: a returned job status, or the `TimeoutError`
raised once the wall-clock deadline elapses. -/
inductive WaitOutcome where
  | job (status : String)
  | timedOut
deriving DecidableEq, Repr

/-- `transcriber.wait_for_job` over the trace of statuses observed at successive
polls while `time.time() < deadline`; an exhausted trace is the deadline
elapsing, upon which `TimeoutError` is raised. -/
def wait_for_job : List String → WaitOutcome
  | [] => WaitOutcome.timedOut
  | s :: rest =>
    if s = "COMPLETED" ∨ s = "FAILED" then WaitOutcome.job s else wait_for_job rest

/-- The job metadata fields read by the failure check in `transcribe_uploaded`. -/
structure JobMeta where
  transcriptionJobStatus : Option String := none
  failureReason : Option String := none
deriving DecidableEq, Repr

/-- The failure check of `transcribe_uploaded` (lines 297-298): raise
`RuntimeError(job.get("FailureReason", "Unknown failure"))` on a FAILED job. -/
def failure_check (job : JobMeta) : Except String Unit :=
  if job.transcriptionJobStatus = some "FAILED" then
    Except.error (job.failureReason.getD "Unknown failure")
  else Except.ok ()

/-! ### Concrete fixtures -/

/-- Speaker A of the two-speaker heuristic scenario. -/
def turnA : Turn := { speaker := "A", text := some "I feel dizzy since yesterday" }

/-- Speaker B of the two-speaker heuristic scenario. -/
def turnB : Turn := { speaker := "B", text := some "let me check your vitals" }

/-- Two anonymous speakers used for the classification-coverage scenario. -/
def c2turns : List Turn := [{ speaker := "Speaker 1" }, { speaker := "Speaker 2" }]

/-- A single pre-refinement classified turn. -/
def c1turns : List ClassifiedTurn := [⟨"spk_0", some "hello", none, "patient", "Patient"⟩]

/-- A no-diarization payload whose precomputed transcript ("Bye") disagrees
with its token stream ("Hello"). -/
def c6r : Results :=
  { items := [{ type := "pronunciation", start_time := some "0.0",
                alternatives := some [{ content := "Hello" }] }],
    speaker_labels := none,
    transcripts := [⟨"Bye"⟩] }

/-- A diarized payload whose token stream is a single punctuation token. -/
def c8r : Results :=
  { items := [{ type := "punctuation", alternatives := some [{ content := "," }] }],
    speaker_labels := some { segments := [] },
    transcripts := [] }

/-- A diarized payload whose token stream starts with punctuation followed by a
pronunciation token attributed to `spk_0` at time `0.0`. -/
def c8r2 : Results :=
  { items := [{ type := "punctuation", alternatives := some [{ content := "," }] },
              { type := "pronunciation", start_time := some "0.0",
                alternatives := some [{ content := "Hello" }] }],
    speaker_labels := some { segments := [{ speaker_label := some "spk_0",
                                            items := [{ start_time := some "0.0" }] }] },
    transcripts := [] }

/-- Diarization input with two raw labels used by the reconstruction witness. -/
def c7sl : SpeakerLabels :=
  { segments := [{ speaker_label := some "s0",
                   items := [{ start_time := some "0.0" }, { start_time := some "1.0" }] },
                 { speaker_label := some "s1",
                   items := [{ start_time := some "2.0" }] }] }

/-- A diarized payload with two speakers and an interior punctuation token. -/
def c7r : Results :=
  { items := [{ type := "pronunciation", start_time := some "0.0",
                alternatives := some [{ content := "Hi" }] },
              { type := "punctuation", alternatives := some [{ content := "," }] },
              { type := "pronunciation", start_time := some "1.0",
                alternatives := some [{ content := "there" }] },
              { type := "pronunciation", start_time := some "2.0",
                alternatives := some [{ content := "Yes" }] }],
    speaker_labels := some c7sl,
    transcripts := [] }

/-- Items exercising `doc_confidence`: a scored word, an unscored word, a
punctuation token and another scored word. -/
def c5items : List TItem :=
  [{ type := "pronunciation", alternatives := some [{ content := "a", confidence := some (1/2) }] },
   { type := "pronunciation", alternatives := some [{ content := "b" }] },
   { type := "punctuation", alternatives := some [{ content := "." }] },
   { type := "pronunciation", alternatives := some [{ content := "c", confidence := some 1 }] }]

/-! ### Association-list lemmas -/

theorem dictGet_isSome_eq_dictHas {α : Type} (m : List (String × α)) (k : String) :
    (dictGet m k).isSome = dictHas m k := by
  induction m with
  | nil => rfl
  | cons p rest ih =>
    by_cases h : p.1 = k
    · simp [dictGet, dictHas, List.find?_cons, List.contains_cons, h]
    · have h' : (p.1 == k) = false := by simpa using h
      have h'' : (k == p.1) = false := by simpa using (Ne.symm h)
      simp only [dictGet, dictHas, List.find?_cons, List.map_cons, List.contains_cons, h', h'',
        Bool.false_or] at *
      exact ih

theorem dictHas_iff {α : Type} {m : List (String × α)} {k : String} :
    dictHas m k = true ↔ k ∈ m.map Prod.fst := by
  simp [dictHas, List.contains, List.elem_iff]

theorem keys_map_update {α : Type} (m : List (String × α)) (k : String) (v : α) :
    (m.map (fun p => if p.1 == k then (k, v) else p)).map Prod.fst
      = m.map (fun p => if p.1 = k then k else p.1) := by
  induction m with
  | nil => rfl
  | cons p rest ih =>
    simp only [List.map_cons, ih]
    congr 1
    by_cases h : p.1 = k <;> simp [h]

theorem dictHas_insertR_iff {α : Type} {m : List (String × α)} {k x : String} {v : α} :
    dictHas (dictInsertR m k v) x = true ↔ (dictHas m x = true ∨ x = k) := by
  unfold dictInsertR
  by_cases hc : (m.map Prod.fst).contains k
  · have hk : k ∈ m.map Prod.fst := dictHas_iff.mp hc
    rw [if_pos hc, dictHas_iff, keys_map_update, dictHas_iff]
    by_cases hx : x = k
    · subst hx
      constructor
      · intro _; exact Or.inr rfl
      · intro _
        rcases List.mem_map.mp hk with ⟨p, hp, hpk⟩
        exact List.mem_map.mpr ⟨p, hp, by simp [hpk]⟩
    · constructor
      · intro h
        rcases List.mem_map.mp h with ⟨p, hp, hpx⟩
        by_cases hpk : p.1 = k
        · rw [if_pos hpk] at hpx; exact absurd hpx.symm hx
        · rw [if_neg hpk] at hpx
          exact Or.inl (List.mem_map.mpr ⟨p, hp, hpx⟩)
      · rintro (h | rfl)
        · rcases List.mem_map.mp h with ⟨p, hp, hpx⟩
          have hpk : ¬p.1 = k := by rw [hpx]; exact hx
          exact List.mem_map.mpr ⟨p, hp, by rw [if_neg hpk]; exact hpx⟩
        · exact absurd rfl hx
  · rw [if_neg hc, dictHas_iff, dictHas_iff]
    simp

theorem dictHas_insertR_mono {α : Type} {m : List (String × α)} {x : String}
    (k : String) (v : α) (h : dictHas m x = true) :
    dictHas (dictInsertR m k v) x = true :=
  dictHas_insertR_iff.mpr (Or.inl h)

theorem dictHas_if_insertR {α : Type} {b : Bool} {m : List (String × α)} {x k : String}
    {v : α} (h : dictHas m x = true) :
    dictHas (if b then dictInsertR m k v else m) x = true := by
  cases b
  · simpa using h
  · simpa using dictHas_insertR_mono k v h

/-! ### Heuristic coverage lemmas -/

theorem mem_uniqueSpeakers_aux (turns : List Turn) :
    ∀ (acc : List String) (spk : String),
      (spk ∈ acc ∨ spk ∈ turns.map Turn.speaker) →
      spk ∈ turns.foldl (fun u t => if u.contains t.speaker then u else u ++ [t.speaker]) acc := by
  induction turns with
  | nil => intro acc spk h; simpa using h.resolve_right (by simp)
  | cons t rest ih =>
    intro acc spk h
    simp only [List.foldl_cons]
    by_cases hc : acc.contains t.speaker
    · rw [if_pos hc]
      apply ih
      rcases h with h | h
      · exact Or.inl h
      · rcases (by simpa using h : spk = t.speaker ∨ spk ∈ rest.map Turn.speaker) with rfl | h2
        · exact Or.inl (by simpa [List.elem_iff] using hc)
        · exact Or.inr h2
    · rw [if_neg hc]
      apply ih
      rcases h with h | h
      · exact Or.inl (by simp [h])
      · rcases (by simpa using h : spk = t.speaker ∨ spk ∈ rest.map Turn.speaker) with rfl | h2
        · exact Or.inl (by simp)
        · exact Or.inr h2

theorem initMapping_has :
    ∀ (l : List String) (i : Nat) (m : List (String × String)) (x : String),
      (dictHas m x = true ∨ x ∈ l) → dictHas (initMapping l i m) x = true := by
  intro l
  induction l with
  | nil => intro i m x h; simpa [initMapping] using h.resolve_right (by simp)
  | cons spk rest ih =>
    intro i m x h
    simp only [initMapping]
    apply ih
    rcases h with h | h
    · exact Or.inl (dictHas_insertR_mono _ _ h)
    · rcases (by simpa using h : x = spk ∨ x ∈ rest) with rfl | h2
      · exact Or.inl (dictHas_insertR_iff.mpr (Or.inr rfl))
      · exact Or.inr h2

theorem keywordStep_has (turns : List Turn) (m : List (String × String)) (spk x : String)
    (h : dictHas m x = true) : dictHas (keywordStep turns m spk) x = true := by
  simp only [keywordStep]
  exact dictHas_if_insertR (dictHas_if_insertR h)

theorem foldl_keywordStep_has (turns : List Turn) :
    ∀ (l : List String) (m : List (String × String)) (x : String),
      dictHas m x = true → dictHas (l.foldl (keywordStep turns) m) x = true := by
  intro l
  induction l with
  | nil => intro m x h; simpa using h
  | cons spk rest ih =>
    intro m x h
    simpa using ih _ _ (keywordStep_has turns m spk x h)

theorem heuristic_mapping_covers (turns : List Turn) (spk : String)
    (h : spk ∈ turns.map Turn.speaker) :
    dictHas (_heuristic_mapping turns) spk = true := by
  unfold _heuristic_mapping
  apply foldl_keywordStep_has
  apply initMapping_has
  exact Or.inr (mem_uniqueSpeakers_aux turns [] spk (Or.inr h))

theorem classify_fold_keys_subset :
    ∀ (raw : List (String × String)) (acc : List (String × String)) (x : String),
      dictHas (raw.foldl primaryStep acc) x = true →
      dictHas acc x = true ∨ x ∈ raw.map Prod.fst := by
  intro raw
  induction raw with
  | nil => intro acc x h; exact Or.inl (by simpa using h)
  | cons p rest ih =>
    intro acc x h
    simp only [List.foldl_cons] at h
    rcases ih _ x h with h2 | h2
    · rcases dictHas_insertR_iff.mp (by simpa [primaryStep] using h2) with h3 | h3
      · exact Or.inl h3
      · exact Or.inr (by simp [h3])
    · exact Or.inr (by simp [h2])

/-! ### Confidence-collection lemmas -/

theorem collectConf_eq (items : List TItem) (h : items.all docItemWF = true) :
    collectConf items = some (items.filterMap tokenScore) := by
  induction items with
  | nil => rfl
  | cons it rest ih =>
    rw [List.all_cons, Bool.and_eq_true] at h
    obtain ⟨h1, h2⟩ := h
    by_cases hp : it.type = "pronunciation"
    · rcases halt : it.alternatives with _ | l
      · simp [collectConf, docAlt0, halt, hp, tokenScore, ih h2, List.filterMap_cons]
      · cases l with
        | nil => rw [docItemWF, if_pos hp, halt] at h1; cases h1
        | cons a as =>
          rcases hc : a.confidence with _ | c
          · simp [collectConf, docAlt0, halt, hp, hc, tokenScore, ih h2, List.filterMap_cons]
          · simp [collectConf, docAlt0, halt, hp, hc, tokenScore, ih h2, List.filterMap_cons]
    · simp [collectConf, hp, tokenScore, ih h2, List.filterMap_cons]

/-! ### Flush and walk-state lemmas -/

theorem flush_spkIndex (st : RState) : (flushState st).spkIndex = st.spkIndex := by
  obtain ⟨si, cs, cw, tn⟩ := st
  cases cs with
  | none => cases cw <;> rfl
  | some s =>
    cases cw with
    | nil => rfl
    | cons w ws => by_cases hs : s = "" <;> simp [flushState, hs]

theorem flush_none (st : RState) (h : st.currentSpeaker = none) : flushState st = st := by
  obtain ⟨si, cs, cw, tn⟩ := st
  cases h
  cases cw <;> rfl

theorem flush_empty_speaker (st : RState) (h : st.currentSpeaker = some "") :
    flushState st = st := by
  obtain ⟨si, cs, cw, tn⟩ := st
  cases h
  cases cw with
  | nil => rfl
  | cons w ws => simp [flushState]

theorem flush_append (st : RState) (s : String) (h : st.currentSpeaker = some s)
    (hs : s ≠ "") (hw : st.currentWords ≠ []) :
    (flushState st).turns.length = st.turns.length + 1 ∧
      (flushState st).currentWords = [] := by
  obtain ⟨si, cs, cw, tn⟩ := st
  cases h
  cases cw with
  | nil => exact absurd rfl hw
  | cons w ws => simp [flushState, hs]

theorem flush_TurnP (st : RState) (h : ∀ t ∈ st.turns, TurnP t) :
    ∀ t ∈ (flushState st).turns, TurnP t := by
  obtain ⟨si, cs, cw, tn⟩ := st
  cases cs with
  | none => cases cw <;> exact h
  | some s =>
    cases cw with
    | nil => exact h
    | cons w ws =>
      by_cases hs : s = ""
      · simpa [flushState, hs] using h
      · intro t ht
        rcases (by simpa [flushState, hs] using ht :
            t ∈ tn ∨ t = RawTurn.mk s (w :: ws) (joinSp (w :: ws))) with h1 | rfl
        · exact h t h1
        · exact ⟨rfl, by simp, hs⟩

theorem step_TurnP (ts : List (String × Option String)) (st : RState) (it : TItem)
    (h : ∀ t ∈ st.turns, TurnP t) :
    ∀ t ∈ (stepItem ts st it).turns, TurnP t := by
  unfold stepItem
  by_cases h1 : it.type = "pronunciation"
  · rw [if_pos h1]
    intro t ht
    dsimp only [stepPron] at ht
    split at ht
    · exact h t ht
    · exact flush_TurnP
        ⟨(pronSpeaker ts st.spkIndex st.currentSpeaker it.start_time).2,
          st.currentSpeaker, st.currentWords, st.turns⟩ h t ht
  · rw [if_neg h1]
    by_cases h2 : it.type = "punctuation"
    · rw [if_pos h2]; exact h
    · rw [if_neg h2]; exact h

theorem fold_TurnP (ts : List (String × Option String)) (items : List TItem) :
    ∀ st, (∀ t ∈ st.turns, TurnP t) →
      ∀ t ∈ (items.foldl (stepItem ts) st).turns, TurnP t := by
  induction items with
  | nil => intro st h; simpa using h
  | cons it rest ih => intro st h; simpa using ih _ (step_TurnP ts st it h)

theorem runItems_TurnP (ts : List (String × Option String)) (items : List TItem) :
    ∀ t ∈ runItems ts items, TurnP t := by
  unfold runItems
  exact flush_TurnP _ (fold_TurnP ts items initState (by intro t ht; cases ht))

/-! ### Punctuation-invariance lemmas -/

theorem appendToLast_ne_nil (p : String) (l : List String) : appendToLast p l ≠ [] := by
  cases l with
  | nil => simp [appendToLast]
  | cons w ws => cases ws <;> simp [appendToLast]

theorem pyOr_default (x : Option String) :
    ∃ s, pyOr x (some "Speaker 1") = some s ∧ s ≠ "" := by
  cases x with
  | none => exact ⟨"Speaker 1", rfl, by decide⟩
  | some s =>
    by_cases hs : s = ""
    · exact ⟨"Speaker 1", by simp [pyOr, hs], by decide⟩
    · exact ⟨s, by simp [pyOr, hs], hs⟩

theorem pronSpeaker_some (ts : List (String × Option String)) (idx : List (String × Nat))
    (cs : Option String) (startTime : Option String) :
    ∃ s, (pronSpeaker ts idx cs startTime).1 = some s ∧ s ≠ "" := by
  dsimp only [pronSpeaker]
  exact pyOr_default _

theorem Rrel_init : Rrel initState initState :=
  ⟨rfl, rfl, rfl, fun _ => rfl, fun hne => absurd rfl hne⟩

theorem Rrel_punct {st stf : RState} (h : Rrel st stf) (it : TItem) :
    Rrel (stepPunct st it) stf := by
  obtain ⟨h1, h2, h3, h4, h5⟩ := h
  exact ⟨h1, h2, h3, h4, fun hs => ⟨appendToLast_ne_nil _ _, (h5 hs).2⟩⟩

theorem Rrel_pron {st stf : RState} (h : Rrel st stf)
    (ts : List (String × Option String)) (it : TItem) :
    Rrel (stepPron ts st it) (stepPron ts stf it) := by
  obtain ⟨si, cs, cw, tn⟩ := st
  obtain ⟨sif, csf, cwf, tnf⟩ := stf
  dsimp only [Rrel] at h
  obtain ⟨h1, h2, h3, h4, h5⟩ := h
  subst h1; subst h2
  obtain ⟨s0, hs0, hs0ne⟩ := pronSpeaker_some ts sif csf it.start_time
  dsimp only [stepPron, Rrel]
  by_cases he : (pronSpeaker ts sif csf it.start_time).1 = csf
  · rw [if_pos he, if_pos he]
    dsimp only
    refine ⟨rfl, rfl, h3, ?_, ?_⟩
    · intro hnone
      subst hnone
      rw [hs0] at he
      cases he
    · intro _
      exact ⟨by simp, by simp⟩
  · rw [if_neg he, if_neg he]
    dsimp only
    refine ⟨?_, rfl, ?_, ?_, ?_⟩
    · rw [flush_spkIndex, flush_spkIndex]
    · cases csf with
      | none => rw [flush_none _ rfl, flush_none _ rfl]; exact h3
      | some s =>
        obtain ⟨ha, hb⟩ := h5 (by simp)
        by_cases hs : s = ""
        · subst hs
          rw [flush_empty_speaker _ rfl, flush_empty_speaker _ rfl]
          exact h3
        · obtain ⟨l1, _⟩ := flush_append
            ⟨(pronSpeaker ts sif (some s) it.start_time).2, some s, cw, tn⟩ s rfl hs ha
          obtain ⟨l2, _⟩ := flush_append
            ⟨(pronSpeaker ts sif (some s) it.start_time).2, some s, cwf, tnf⟩ s rfl hs hb
          rw [l1, l2, h3]
    · intro hnone
      rw [hs0] at hnone
      cases hnone
    · intro _
      exact ⟨by simp, by simp⟩

theorem Rrel_fold (ts : List (String × Option String)) (items : List TItem) :
    ∀ st stf, Rrel st stf →
      Rrel (items.foldl (stepItem ts) st)
        ((items.filter (fun it => it.type != "punctuation")).foldl (stepItem ts) stf) := by
  induction items with
  | nil => intro st stf h; simpa using h
  | cons it rest ih =>
    intro st stf h
    by_cases hp : it.type = "punctuation"
    · have hf : (it :: rest).filter (fun it => it.type != "punctuation")
          = rest.filter (fun it => it.type != "punctuation") := by
        simp [List.filter_cons, hp]
      rw [hf, List.foldl_cons]
      have hstep : stepItem ts st it = stepPunct st it := by
        rw [stepItem, if_neg (by simp [hp]), if_pos hp]
      rw [hstep]
      exact ih _ _ (Rrel_punct h it)
    · have hf : (it :: rest).filter (fun it => it.type != "punctuation")
          = it :: rest.filter (fun it => it.type != "punctuation") := by
        simp [List.filter_cons, hp]
      rw [hf, List.foldl_cons, List.foldl_cons]
      by_cases hpr : it.type = "pronunciation"
      · simp only [stepItem, if_pos hpr]
        exact ih _ _ (Rrel_pron h ts it)
      · simp only [stepItem, if_neg hpr, if_neg hp]
        exact ih _ _ h

theorem Rrel_flush_len {st stf : RState} (h : Rrel st stf) :
    (flushState stf).turns.length = (flushState st).turns.length := by
  obtain ⟨h1, h2, h3, h4, h5⟩ := h
  rcases hcs : st.currentSpeaker with _ | s
  · rw [flush_none stf (h2.trans hcs), flush_none st hcs]
    exact h3
  · obtain ⟨ha, hb⟩ := h5 (by rw [hcs]; simp)
    by_cases hs : s = ""
    · subst hs
      rw [flush_empty_speaker stf (h2.trans hcs), flush_empty_speaker st hcs]
      exact h3
    · obtain ⟨l1, _⟩ := flush_append st s hcs hs ha
      obtain ⟨l2, _⟩ := flush_append stf s (h2.trans hcs) hs hb
      rw [l1, l2, h3]

/-! ## Claim theorems -/

/-- Claim C1, counterexample: a holistic-refinement response whose parsed lines
include the unrecognized-tag line `[Unknown] some text` together with one valid
line is NOT discarded in full; the valid line is adopted on its own, so the
result differs from the pre-refinement turns (partial adoption occurs). -/
theorem refine_partial_adoption_counterexample :
    refine_dialogue_with_llm true (some "[Unknown] some text\n[Doctor] Hello there.") c1turns
      = [⟨"refined", some "Hello there.", none, "doctor", "Doctor"⟩] ∧
    refine_dialogue_with_llm true (some "[Unknown] some text\n[Doctor] Hello there.") c1turns
      ≠ c1turns := by
  constructor
  · rfl
  · decide

/-- Claim C1, amended: a line with an unrecognized role tag such as
`[Unknown] some text` parses to no turn and is skipped individually — the parse
of the surrounding lines is exactly the parse with that line removed; the
refinement is discarded in full only when no line yields a valid turn or a parse
exception occurs, not whenever an unrecognized tag is present. -/
theorem refine_unknown_line_skipped (ls1 ls2 : List String) :
    handleLine "[Unknown] some text" = Except.ok none ∧
    parseLines (ls1 ++ "[Unknown] some text" :: ls2) = parseLines (ls1 ++ ls2) := by
  have h : handleLine "[Unknown] some text" = Except.ok none := by rfl
  refine ⟨h, ?_⟩
  induction ls1 with
  | nil =>
    show parseLines ("[Unknown] some text" :: ls2) = parseLines ls2
    rw [parseLines, h]
  | cons l ls ih =>
    show parseLines (l :: (ls ++ "[Unknown] some text" :: ls2)) = parseLines (l :: (ls ++ ls2))
    rw [parseLines, parseLines]
    rcases hl : handleLine l with e | t
    · rfl
    · cases t
      · exact ih
      · rw [ih]

/-- Claim C2, counterexample: with an available key and a primary response whose
mapping only names `Speaker 1`, `classify_roles` returns a mapping that omits
`Speaker 2` even though that speaker occurs in the input turns; the `other`
default for missing speakers happens only downstream. -/
theorem classify_roles_omits_speaker_counterexample :
    "Speaker 2" ∈ c2turns.map Turn.speaker ∧
    classify_roles true (some [("Speaker 1", "doctor")]) c2turns
      = [("Speaker 1", "doctor")] ∧
    dictGet (classify_roles true (some [("Speaker 1", "doctor")]) c2turns) "Speaker 2"
      = none := by
  refine ⟨by decide, by rfl, by rfl⟩

/-- Claim C2, amended: the heuristic fallback mapping contains an entry for
every speaker occurring in the input turns, and `classify_roles` therefore
covers every input speaker whenever it returns the heuristic mapping; but when
it adopts a primary-response mapping (result differing from the heuristic), an
input speaker is covered only if the raw response names that speaker — speakers
omitted from the primary response are absent from the result rather than
defaulted to `other`. -/
theorem classify_roles_speaker_coverage (hasKey : Bool)
    (resp : Option (List (String × String))) (turns : List Turn) (spk : String)
    (h : spk ∈ turns.map Turn.speaker) :
    (dictGet (_heuristic_mapping turns) spk).isSome = true ∧
    (∀ raw, resp = some raw →
      classify_roles hasKey resp turns ≠ _heuristic_mapping turns →
      (dictGet (classify_roles hasKey resp turns) spk).isSome = true →
      spk ∈ raw.map Prod.fst) := by
  constructor
  · rw [dictGet_isSome_eq_dictHas]
    exact heuristic_mapping_covers turns spk h
  · intro raw hraw hne hsome
    subst hraw
    cases hasKey with
    | false => exact absurd rfl hne
    | true =>
      have hres : classify_roles true (some raw) turns
          = if !(primaryMapping raw).isEmpty
                && (primaryMapping raw).all (fun p => p.2 == "other") then
              _heuristic_mapping turns
            else if (primaryMapping raw).isEmpty then _heuristic_mapping turns
            else primaryMapping raw := rfl
      by_cases h1 : (!(primaryMapping raw).isEmpty
          && (primaryMapping raw).all (fun p => p.2 == "other")) = true
      · rw [hres, if_pos h1] at hne
        exact absurd rfl hne
      · by_cases h2 : (primaryMapping raw).isEmpty = true
        · rw [hres, if_neg (by simp [h1]), if_pos h2] at hne
          exact absurd rfl hne
        · rw [hres, if_neg (by simp [h1]), if_neg (by simp [h2])] at hsome
          rw [dictGet_isSome_eq_dictHas] at hsome
          rcases classify_fold_keys_subset raw [] spk hsome with hc | hc
          · exact absurd hc (by simp [dictHas])
          · exact hc

/-- Claim C2, witness for the amended theorem at a concrete input. -/
theorem classify_roles_speaker_coverage_witness :
    (dictGet (_heuristic_mapping c2turns) "Speaker 2").isSome = true :=
  (classify_roles_speaker_coverage true (some [("Speaker 1", "doctor")]) c2turns
    "Speaker 2" (by decide)).1

/-- Claim C3, counterexample: with speaker A (utterance "I feel dizzy since
yesterday") speaking first and speaker B (utterance "let me check your vitals")
second, the heuristic maps BOTH speakers to `patient`: B's utterance matches no
clinician-action keyword, so B keeps the second-speaker default `patient`
instead of the claimed `doctor`. -/
theorem heuristic_vitals_counterexample :
    _heuristic_mapping [turnA, turnB] = [("A", "patient"), ("B", "patient")] ∧
    dictGet (_heuristic_mapping [turnA, turnB]) "B" ≠ some "doctor" := by
  refine ⟨by rfl, by decide⟩

/-- Claim C3, amended: with exactly these utterances, A is classified `patient`
in both speaking orders (symptom keyword "i feel" matches), while B — whose text
matches no clinician-action keyword — retains the positional default: `doctor`
when B speaks first, `patient` when A speaks first. The classification is not
order-independent. -/
theorem heuristic_vitals_order_dependent :
    _heuristic_mapping [turnA, turnB] = [("A", "patient"), ("B", "patient")] ∧
    _heuristic_mapping [turnB, turnA] = [("B", "doctor"), ("A", "patient")] := by
  exact ⟨by rfl, by rfl⟩

theorem roleSet_display (r : String) (hr : r ∈ roleSet) :
    (dictGet ROLE_NAMES r).isSome = true := by
  rcases (by simpa [roleSet] using hr : r = "doctor" ∨ r = "patient" ∨ r = "nurse" ∨
    r = "other") with rfl | rfl | rfl | rfl <;> decide

/-- Claim C10 (confirmed): relabeling returns exactly one classified turn per
input turn, in order, with `speaker`, `text` and `words` copied unchanged; the
added `role` is the mapping's value for the speaker (defaulting to `other` for
speakers absent from the mapping) and `display_name` is the `ROLE_NAMES` entry
of that role. The hypothesis states that `mapping` is a role mapping, i.e. its
values lie in the fixed role vocabulary (so the `ROLE_NAMES` lookup cannot
raise). -/
theorem re_label_turns_frame (turns : List Turn) (mapping : List (String × String))
    (h : ∀ p ∈ mapping, p.2 ∈ roleSet) :
    ∃ out, re_label_turns turns mapping = some out ∧
      out.length = turns.length ∧
      ∀ q ∈ out.zip turns,
        q.1.speaker = q.2.speaker ∧ q.1.text = q.2.text ∧ q.1.words = q.2.words ∧
        q.1.role = (dictGet mapping q.2.speaker).getD "other" ∧
        dictGet ROLE_NAMES q.1.role = some q.1.display_name := by
  induction turns with
  | nil => exact ⟨[], rfl, rfl, by simp⟩
  | cons t rest ih =>
    obtain ⟨out, hout, hlen, hq⟩ := ih
    have hrole : ((dictGet mapping t.speaker).getD "other") ∈ roleSet := by
      rcases hg : dictGet mapping t.speaker with _ | r
      · simp [roleSet]
      · rcases Option.map_eq_some'.mp hg with ⟨p, hfind, hsnd⟩
        have := h p (List.mem_of_find?_eq_some hfind)
        simpa [hsnd] using this
    have hdisp := roleSet_display _ hrole
    rcases hd : dictGet ROLE_NAMES ((dictGet mapping t.speaker).getD "other")
        with _ | dn
    · rw [hd] at hdisp; exact absurd hdisp (by simp)
    · refine ⟨⟨t.speaker, t.text, t.words,
        (dictGet mapping t.speaker).getD "other", dn⟩ :: out, ?_, ?_, ?_⟩
      · simp only [re_label_turns]
        rw [hd, hout]
        rfl
      · simpa using hlen
      · intro q hq2
        rcases (by simpa using hq2 :
            q = (⟨t.speaker, t.text, t.words,
              (dictGet mapping t.speaker).getD "other", dn⟩, t) ∨
            q ∈ out.zip rest) with rfl | hmem
        · exact ⟨rfl, rfl, rfl, rfl, by simpa using hd⟩
        · exact hq q hmem

/-- Claim C10, witness: the frame theorem applied to a concrete turn list and
role mapping. -/
theorem re_label_turns_frame_witness :
    (∀ p ∈ [("A", "patient")], p.2 ∈ roleSet) ∧
    (∃ out, re_label_turns [turnA, turnB] [("A", "patient")] = some out ∧
      out.length = ([turnA, turnB] : List Turn).length ∧
      ∀ q ∈ out.zip [turnA, turnB],
        q.1.speaker = q.2.speaker ∧ q.1.text = q.2.text ∧ q.1.words = q.2.words ∧
        q.1.role = (dictGet [("A", "patient")] q.2.speaker).getD "other" ∧
        dictGet ROLE_NAMES q.1.role = some q.1.display_name) :=
  ⟨by decide, re_label_turns_frame [turnA, turnB] [("A", "patient")] (by decide)⟩

/-- Claim C4 (confirmed): the polling loop returns a job only in a terminal
status (`COMPLETED` or `FAILED`); if every status observed before the deadline
is non-terminal, the outcome is `timedOut`; and the timeout outcome is distinct
from every job-returning outcome, in particular from `FAILED`. -/
theorem wait_for_job_terminal (polls : List String) :
    (∀ s, wait_for_job polls = WaitOutcome.job s → s = "COMPLETED" ∨ s = "FAILED") ∧
    ((∀ s ∈ polls, ¬(s = "COMPLETED" ∨ s = "FAILED")) →
      wait_for_job polls = WaitOutcome.timedOut) ∧
    (∀ s, WaitOutcome.timedOut ≠ WaitOutcome.job s) := by
  refine ⟨?_, ?_, fun s hcontra => by cases hcontra⟩
  · induction polls with
    | nil => intro s hjob; cases hjob
    | cons p rest ih =>
      intro s hjob
      by_cases hp : p = "COMPLETED" ∨ p = "FAILED"
      · rw [wait_for_job, if_pos hp] at hjob
        injection hjob with hps
        exact hps ▸ hp
      · rw [wait_for_job, if_neg hp] at hjob
        exact ih s hjob
  · induction polls with
    | nil => intro _; rfl
    | cons p rest ih =>
      intro hall
      rw [wait_for_job, if_neg (hall p (by simp))]
      exact ih (fun s hs => hall s (by simp [hs]))

/-- Claim C4, witness: the polling theorem applied to concrete traces. -/
theorem wait_for_job_terminal_witness :
    wait_for_job ["SUBMITTED", "IN_PROGRESS"] = WaitOutcome.timedOut ∧
    ("COMPLETED" = "COMPLETED" ∨ "COMPLETED" = "FAILED") :=
  ⟨(wait_for_job_terminal ["SUBMITTED", "IN_PROGRESS"]).2.1 (by decide),
   (wait_for_job_terminal ["IN_PROGRESS", "COMPLETED"]).1 "COMPLETED" (by rfl)⟩

/-- Claim C5 (confirmed): on payloads where no pronunciation item has a
present-but-empty alternatives list (where the source would raise `IndexError`),
`doc_confidence` returns exactly the arithmetic mean of the confidences carried
by pronunciation tokens — tokens without a confidence are excluded from both
numerator and denominator — and exactly `1` when no scored token exists. -/
theorem doc_confidence_mean (items : List TItem) (h : items.all docItemWF = true) :
    doc_confidence items = some (
      if (items.filterMap tokenScore).isEmpty then 1
      else (items.filterMap tokenScore).sum / (items.filterMap tokenScore).length) := by
  rw [doc_confidence, collectConf_eq items h]
  rfl

/-- Claim C5, witness: the mean over a concrete stream with a scored word, an
unscored word, a punctuation token and another scored word. -/
theorem doc_confidence_mean_witness :
    c5items.all docItemWF = true ∧
    doc_confidence c5items = some (
      if (c5items.filterMap tokenScore).isEmpty then 1
      else (c5items.filterMap tokenScore).sum / (c5items.filterMap tokenScore).length) :=
  ⟨by decide, doc_confidence_mean c5items (by decide)⟩

/-- Claim C6, counterexample: on a no-diarization payload the emitted turn's
text is the payload's precomputed `transcripts` field ("Bye"), not the
whitespace-joined text of the token sequence ("Hello") — the reconstruction
never reads the tokens on this path. -/
theorem pretty_turns_ignores_tokens_counterexample :
    pretty_turns c6r = some [⟨"Speaker 1", ["Bye"], "Bye"⟩] ∧
    tokensText c6r = "Hello" ∧
    ("Bye" : String) ≠ "Hello" :=
  ⟨rfl, rfl, by decide⟩

/-- Claim C6, amended: for every payload with no diarization input,
`pretty_turns` returns exactly one turn under the synthetic label "Speaker 1",
whose text is the payload's first `transcripts` entry (empty when none exists)
and whose words are that text's whitespace-split — the token sequence itself is
not consulted. -/
theorem pretty_turns_no_diarization (r : Results) (h : r.speaker_labels = none) :
    pretty_turns r
      = some [⟨"Speaker 1", pySplit (headTranscript r), headTranscript r⟩] := by
  unfold pretty_turns
  rw [h]

/-- Claim C6, witness: the amended theorem at a concrete payload. -/
theorem pretty_turns_no_diarization_witness :
    pretty_turns c6r
      = some [⟨"Speaker 1", pySplit (headTranscript c6r), headTranscript c6r⟩] :=
  pretty_turns_no_diarization c6r rfl

/-- Claim C7 (confirmed): on the diarization path (with well-formed items),
every returned turn's text equals the space-join of its words' final texts, and
removing all punctuation tokens leaves the number of turns unchanged —
punctuation never opens or closes a turn, so the turn count depends only on
speaker changes among pronunciation tokens. -/
theorem pretty_turns_words_and_punct (r : Results) (sl : SpeakerLabels)
    (hsl : r.speaker_labels = some sl) (hwf : r.items.all itemWF = true) :
    ∃ ts ts2,
      pretty_turns r = some ts ∧
      (∀ t ∈ ts, t.text = joinSp t.words) ∧
      pretty_turns { r with items := r.items.filter (fun it => it.type != "punctuation") }
        = some ts2 ∧
      ts2.length = ts.length := by
  have hwf2 : (r.items.filter (fun it => it.type != "punctuation")).all itemWF = true := by
    apply List.all_eq_true.mpr
    intro a ha
    exact List.all_eq_true.mp hwf a (List.mem_filter.mp ha).1
  refine ⟨runItems (build_speaker_map sl) r.items,
    runItems (build_speaker_map sl) (r.items.filter (fun it => it.type != "punctuation")),
    ?_, ?_, ?_, ?_⟩
  · simp [pretty_turns, hsl, hwf]
  · intro t ht
    exact (runItems_TurnP _ _ t ht).1
  · simp [pretty_turns, hsl, hwf2]
  · unfold runItems
    exact Rrel_flush_len (Rrel_fold _ _ initState initState Rrel_init)

/-- Claim C7, witness: the reconstruction theorem at a concrete two-speaker
payload containing a punctuation token. -/
theorem pretty_turns_words_and_punct_witness :
    c7r.speaker_labels = some c7sl ∧
    (∃ ts ts2,
      pretty_turns c7r = some ts ∧
      (∀ t ∈ ts, t.text = joinSp t.words) ∧
      pretty_turns { c7r with items := c7r.items.filter (fun it => it.type != "punctuation") }
        = some ts2 ∧
      ts2.length = ts.length) :=
  ⟨rfl, pretty_turns_words_and_punct c7r c7sl rfl (by decide)⟩

/-- Claim C8, counterexample: a stream whose only token is punctuation yields
NO turn at all (not a preserved empty leading turn), and a stream of punctuation
followed by a word absorbs the punctuation as the first word of the first real
turn — the reconstructor never emits an empty leading turn. -/
theorem pretty_turns_leading_punct_counterexample :
    pretty_turns c8r = some [] ∧
    pretty_turns c8r2 = some [⟨"Speaker 1", [",", "Hello"], ", Hello"⟩] :=
  ⟨rfl, rfl⟩

/-- Claim C8, amended: on the diarization path with well-formed tokens,
`pretty_turns` does not crash on streams beginning with punctuation — it returns
a result — but no empty leading turn is produced: every emitted turn has a
nonempty word list; leading punctuation is absorbed into the first pronunciation
turn, or dropped entirely when no pronunciation token follows. -/
theorem pretty_turns_no_crash_no_empty_turn (r : Results) (sl : SpeakerLabels)
    (hsl : r.speaker_labels = some sl) (hwf : r.items.all itemWF = true) :
    ∃ ts, pretty_turns r = some ts ∧ ∀ t ∈ ts, t.words ≠ [] := by
  refine ⟨runItems (build_speaker_map sl) r.items, by simp [pretty_turns, hsl, hwf], ?_⟩
  intro t ht
  exact (runItems_TurnP _ _ t ht).2.1

/-- Claim C8, witness: the amended theorem at the punctuation-only payload. -/
theorem pretty_turns_no_crash_no_empty_turn_witness :
    ∃ ts, pretty_turns c8r = some ts ∧ ∀ t ∈ ts, t.words ≠ [] :=
  pretty_turns_no_crash_no_empty_turn c8r { segments := [] } rfl (by decide)

/-- Claim C9, counterexample: a FAILED job whose `FailureReason` key is present
but holds the empty string propagates the empty string as the failure message —
the "Unknown failure" sentinel replaces only an absent key, so the caller CAN
receive an empty failure message. -/
theorem failure_check_empty_counterexample :
    failure_check { transcriptionJobStatus := some "FAILED", failureReason := some "" }
      = Except.error "" :=
  rfl

/-- Claim C9, amended: for a FAILED job the failure message is the job's
failure reason when the key is present (even when empty), and the fixed sentinel
"Unknown failure" when the key is absent; the message is nonempty whenever the
present reason is nonempty (or absent), but not in general. -/
theorem failure_check_amended (job : JobMeta)
    (h : job.transcriptionJobStatus = some "FAILED") :
    (job.failureReason = none → failure_check job = Except.error "Unknown failure") ∧
    (∀ r, job.failureReason = some r → failure_check job = Except.error r) ∧
    (∀ e, failure_check job = Except.error e → job.failureReason ≠ some "" → e ≠ "") := by
  refine ⟨?_, ?_, ?_⟩
  · intro hr
    simp [failure_check, h, hr]
  · intro r hr
    simp [failure_check, h, hr]
  · intro e he hne
    rcases hr : job.failureReason with _ | r
    · simp only [failure_check, h, hr, if_pos] at he
      have he2 : ("Unknown failure" : String) = e := by
        simpa [Option.getD] using he
      rw [← he2]
      decide
    · simp only [failure_check, h, hr, if_pos] at he
      have he2 : r = e := by
        simpa [Option.getD] using he
      intro he0
      exact hne (by rw [hr, he2, he0])

/-- Claim C9, witness: the amended theorem at a FAILED job without a reason. -/
theorem failure_check_amended_witness :
    failure_check { transcriptionJobStatus := some "FAILED", failureReason := none }
      = Except.error "Unknown failure" :=
  (failure_check_amended { transcriptionJobStatus := some "FAILED", failureReason := none }
    rfl).1 rfl

end VoiceToSummary
